import Mathlib

/-!
Verification development for the well-segment/schedule reconciliation engine
of `subscript/complot/complot.py` (class `SegmentPlot`).

Each definition below is a shallow embedding of a concrete piece of the
Python source; measured depths and rates are modelled as rationals, segment
ids as integers, and fallible code paths as `Except`/`Option` values.
-/

namespace Complot

/-- Reservoir-section rate derivation when no annulus layer exists
(`get_data`, the `n_annulus == 1` branch, complot.py lines 1058-1065):
`rate_upstream = rate_inflow[1:]` with `0.0` appended at the end, and the
result is the elementwise difference `rate_inflow - rate_upstream`. -/
def reservoir_inflow_no_annulus (rate_inflow : List ℚ) : List ℚ :=
  List.zipWith (fun a b => a - b) rate_inflow (rate_inflow.drop 1 ++ [0])

/-- Tubing-section SGFRF derivation (`get_data`, complot.py lines 913-918):
walking the device inflow profile from the deepest index backwards,
`value[last] = rate_inflow[last]` and `value[k] = value[k+1] + rate_inflow[k]`.
The tubing and device profiles have equal length by the INFORMATION-keyword
invariant checked in `get_info_per_well`. -/
def tubing_sgfrf : List ℚ → List ℚ
  | [] => []
  | [x] => [x]
  | x :: y :: xs =>
    let rest := tubing_sgfrf (y :: xs)
    (x + rest.headD 0) :: rest

/-- Water cut per row (`get_data`, complot.py lines 844-851 and the identical
blocks for the other sections): `np.where(|SWFR| + |SOFR| < min_rate, 0.0,
|SWFR| / (|SWFR| + |SOFR| + 0.00001))` with `min_rate = 0.1`. -/
def swct (swfr sofr : ℚ) : ℚ :=
  if |swfr| + |sofr| < 1 / 10 then 0
  else |swfr| / (|swfr| + |sofr| + 1 / 100000)

/-- Gas-oil ratio per row (`get_data`, complot.py lines 855-858):
`|SGFRF| / (|SOFR| + 0.00001)`. -/
def sgor (sgfrf sofr : ℚ) : ℚ :=
  |sgfrf| / (|sofr| + 1 / 100000)

theorem reservoir_inflow_no_annulus_cons_cons (a b : ℚ) (t : List ℚ) :
    reservoir_inflow_no_annulus (a :: b :: t) =
      (a - b) :: reservoir_inflow_no_annulus (b :: t) := rfl

theorem reservoir_inflow_no_annulus_getD (rates : List ℚ) (k : Nat) :
    (reservoir_inflow_no_annulus rates).getD k 0 =
      rates.getD k 0 - rates.getD (k + 1) 0 := by
  induction rates generalizing k with
  | nil => simp [reservoir_inflow_no_annulus]
  | cons a t ih =>
    cases t with
    | nil =>
      cases k with
      | zero => simp [reservoir_inflow_no_annulus]
      | succ k => simp [reservoir_inflow_no_annulus]
    | cons b t2 =>
      cases k with
      | zero => simp [reservoir_inflow_no_annulus_cons_cons]
      | succ k =>
        rw [reservoir_inflow_no_annulus_cons_cons]
        simpa using ih k

/-- C1: for every timestep with no annulus layer, the derived reservoir
inflow at tubing position k is the cumulative tubing rate at k minus the
cumulative tubing rate at k+1, the term beyond the deepest position being
zero (the `getD` default), and the profile [10, 7, 7, 0] yields
[3, 0, 7, 0]. -/
theorem claim_C1_reservoir_first_difference :
    (∀ (rates : List ℚ) (k : Nat),
        (reservoir_inflow_no_annulus rates).getD k 0 =
          rates.getD k 0 - rates.getD (k + 1) 0) ∧
      reservoir_inflow_no_annulus [10, 7, 7, 0] = [3, 0, 7, 0] := by
  constructor
  · exact reservoir_inflow_no_annulus_getD
  · norm_num [reservoir_inflow_no_annulus]

theorem tubing_sgfrf_getD (inflow : List ℚ) (k : Nat) :
    (tubing_sgfrf inflow).getD k 0 = ((inflow.drop k).sum : ℚ) := by
  induction inflow generalizing k with
  | nil => simp [tubing_sgfrf]
  | cons x t ih =>
    cases t with
    | nil =>
      cases k with
      | zero => simp [tubing_sgfrf]
      | succ k => simp [tubing_sgfrf]
    | cons y t2 =>
      cases k with
      | zero =>
        have h0 : (tubing_sgfrf (y :: t2)).headD 0 =
            (tubing_sgfrf (y :: t2)).getD 0 0 := by
          cases h : tubing_sgfrf (y :: t2) <;> simp
        simp only [tubing_sgfrf, List.getD_cons_zero, List.drop_zero,
          List.sum_cons, h0, ih 0]
      | succ k =>
        simp only [tubing_sgfrf, List.getD_cons_succ, List.drop_succ_cons]
        exact ih k

theorem tubing_sgfrf_length (inflow : List ℚ) :
    (tubing_sgfrf inflow).length = inflow.length := by
  induction inflow with
  | nil => rfl
  | cons x t ih =>
    cases t with
    | nil => rfl
    | cons y t2 => simpa [tubing_sgfrf] using ih

theorem tubing_sgfrf_getLast (inflow : List ℚ) :
    (tubing_sgfrf inflow).getLast? = inflow.getLast? := by
  induction inflow with
  | nil => rfl
  | cons x t ih =>
    cases t with
    | nil => rfl
    | cons y t2 =>
      have hne : tubing_sgfrf (y :: t2) ≠ [] := by
        intro h
        have := tubing_sgfrf_length (y :: t2)
        rw [h] at this
        simp at this
      cases h : tubing_sgfrf (y :: t2) with
      | nil => exact absurd h hne
      | cons r rs =>
        have h1 : tubing_sgfrf (x :: y :: t2) =
            (x + (r :: rs).headD 0) :: r :: rs := by
          simp [tubing_sgfrf, h]
        rw [h1, List.getLast?_cons_cons, ← h, ih, List.getLast?_cons_cons]

/-- C3: the tubing gas rate at position k is the reverse cumulative sum of
the device inflow profile, i.e. the sum of device inflows at positions
k through the deepest position, and the deepest tubing value equals the
deepest device inflow alone. -/
theorem claim_C3_tubing_reverse_cumsum :
    (∀ (inflow : List ℚ) (k : Nat),
        (tubing_sgfrf inflow).getD k 0 = ((inflow.drop k).sum : ℚ)) ∧
      (∀ inflow : List ℚ, (tubing_sgfrf inflow).getLast? = inflow.getLast?) := by
  exact ⟨tubing_sgfrf_getD, tubing_sgfrf_getLast⟩

/-- C7 fails as stated: with water_rate = 0.08 and oil_rate = 0.08 both
rates are below the 0.1 threshold, yet the code computes the ratio because
the guard tests the sum `|SWFR| + |SOFR| < 0.1`, and 0.16 is not below it. -/
theorem claim_C7_counterexample :
    (8 / 100 : ℚ) < 1 / 10 ∧ swct (8 / 100) (8 / 100) ≠ 0 := by
  have habs : |(8 / 100 : ℚ)| = 8 / 100 := abs_of_pos (by norm_num)
  constructor
  · norm_num
  · unfold swct
    rw [habs, if_neg (by norm_num)]
    positivity

/-- C7 (amended): water_cut is |W| / (|W| + |O| + 1e-5) except that it is
exactly 0 when the sum |W| + |O| is below the minimum-rate threshold 0.1
(not merely when each rate is); gas_oil_ratio is |G| / (|O| + 1e-5); the
spec instance water_rate = 0.05, oil_rate = 0.02 gives water_cut = 0. -/
theorem claim_C7_amended (w o g : ℚ) :
    (|w| + |o| < 1 / 10 → swct w o = 0) ∧
      (1 / 10 ≤ |w| + |o| → swct w o = |w| / (|w| + |o| + 1 / 100000)) ∧
      sgor g o = |g| / (|o| + 1 / 100000) ∧
      swct (5 / 100) (2 / 100) = 0 := by
  refine ⟨fun h => ?_, fun h => ?_, rfl, ?_⟩
  · unfold swct
    rw [if_pos h]
  · unfold swct
    rw [if_neg (not_lt.mpr h)]
  · have h1 : |(5 / 100 : ℚ)| = 5 / 100 := abs_of_pos (by norm_num)
    have h2 : |(2 / 100 : ℚ)| = 2 / 100 := abs_of_pos (by norm_num)
    unfold swct
    rw [h1, h2, if_pos (by norm_num)]

theorem claim_C7_witness :
    swct 0 0 = 0 ∧ swct 1 1 = |(1 : ℚ)| / (|(1 : ℚ)| + |(1 : ℚ)| + 1 / 100000) := by
  constructor
  · exact (claim_C7_amended 0 0 0).1 (by norm_num)
  · exact (claim_C7_amended 1 1 1).2.1 (by norm_num)

/-- Completion row from the COMPSEGS table: cell coordinates I, J, K and a
measured-depth interval [STARTMD, ENDMD] (`get_md`, complot.py line 650). -/
structure CompRow where
  ci : Int
  cj : Int
  ck : Int
  startmd : ℚ
  endmd : ℚ
deriving DecidableEq

/-- Error message raised by the welsegs/compsegs merge loop
(`get_md`, complot.py lines 712-715). -/
def seg_error_msg (seg : Int) : String :=
  "Error : Segment " ++ toString seg ++ " is not found inside grid cells"

/-- One iteration of the welsegs/compsegs merge (`get_md`, complot.py lines
701-715): `np.argwhere((start_md <= imd) & (imd <= end_md))` scans the
completion rows in input order and the first hit supplies STARTMD, ENDMD
and the I, J, K cell coordinates; an empty hit list raises a `ValueError`
naming the segment, aborting the current well. -/
def merge_row (seg : Int) (p : ℚ) : List CompRow → Except String CompRow
  | [] => Except.error (seg_error_msg seg)
  | c :: rest =>
    if c.startmd ≤ p ∧ p ≤ c.endmd then Except.ok c else merge_row seg p rest

/-- C2: the merge assigns a segment depth the first completion interval
containing it, in input order, and raises the fatal segment-not-in-grid
error exactly when no interval contains the point. -/
theorem claim_C2_interval_merge (seg : Int) (p : ℚ) (comps : List CompRow) :
    (∀ (i : Nat) (hi : i < comps.length),
        ((comps.get ⟨i, hi⟩).startmd ≤ p ∧ p ≤ (comps.get ⟨i, hi⟩).endmd) →
        (∀ (j : Nat) (hj : j < i),
          ¬((comps.get ⟨j, Nat.lt_trans hj hi⟩).startmd ≤ p ∧
              p ≤ (comps.get ⟨j, Nat.lt_trans hj hi⟩).endmd)) →
        merge_row seg p comps = Except.ok (comps.get ⟨i, hi⟩)) ∧
      (merge_row seg p comps = Except.error (seg_error_msg seg) ↔
        ∀ c ∈ comps, ¬(c.startmd ≤ p ∧ p ≤ c.endmd)) := by
  induction comps with
  | nil =>
    constructor
    · intro i hi
      exact absurd hi (Nat.not_lt_zero i)
    · simp [merge_row]
  | cons c rest ih =>
    constructor
    · intro i hi hcont hfirst
      cases i with
      | zero =>
        simp only [List.get] at hcont ⊢
        simp [merge_row, hcont]
      | succ i =>
        have hnc := hfirst 0 (Nat.succ_pos i)
        simp only [List.get] at hnc ⊢
        rw [merge_row, if_neg hnc]
        exact ih.1 i (Nat.lt_of_succ_lt_succ hi) hcont
          (fun j hj => hfirst (j + 1) (Nat.succ_lt_succ hj))
    · by_cases hc : c.startmd ≤ p ∧ p ≤ c.endmd
      · rw [merge_row, if_pos hc]
        constructor
        · intro h
          exact absurd h (by simp)
        · intro h
          exact absurd hc (h c (List.mem_cons_self c rest))
      · rw [merge_row, if_neg hc]
        rw [ih.2]
        constructor
        · intro h d hd
          rcases List.mem_cons.mp hd with rfl | hd2
          · exact hc
          · exact h d hd2
        · intro h d hd
          exact h d (List.mem_cons_of_mem c hd)

/-- Concrete completion table used to witness C2. -/
def exC2 : List CompRow := [⟨1, 1, 1, 0, 10⟩, ⟨2, 2, 2, 5, 20⟩]

theorem claim_C2_witness :
    merge_row 42 7 exC2 = Except.ok ⟨1, 1, 1, 0, 10⟩ ∧
      merge_row 42 100 exC2 = Except.error (seg_error_msg 42) := by
  constructor
  · have h := (claim_C2_interval_merge 42 7 exC2).1 0 (by norm_num [exC2])
      (by constructor <;> norm_num [exC2])
      (fun j hj => absurd hj (Nat.not_lt_zero j))
    simpa [exC2] using h
  · refine ((claim_C2_interval_merge 42 100 exC2).2).mpr ?_
    intro c hc
    simp only [exC2, List.mem_cons, List.not_mem_nil, or_false] at hc
    rcases hc with rfl | rfl <;>
      · rintro ⟨h1, h2⟩
        norm_num at h2

/-- Annulus segment row taken from the WELSEGS table: segment id, outlet
(parent) segment id, measured depth and true vertical depth
(`get_packer`, complot.py lines 548-571). -/
structure SegRow where
  seg : Int
  outlet : Int
  md : ℚ
  tvd : ℚ
deriving DecidableEq

/-- Rows of the WELSEGS table whose segment id is in the annulus-segment
selection (`get_packer`, complot.py line 549). -/
def annulus_rows (rows : List SegRow) (sel : List Int) : List SegRow :=
  rows.filter (fun r => sel.contains r.seg)

/-- Packer-depth accumulation loop (`get_packer`, complot.py lines 556-571):
for i = 1..n-1, a zone-boundary crossing (outlet of row i differs from the
segment id of row i-1) appends the depth pair of rows i-1 and i, and the
final iteration appends the last row's depths. -/
def packer_loop (prev : SegRow) : List SegRow → List (ℚ × ℚ)
  | [] => []
  | r :: rest =>
    (if r.outlet ≠ prev.seg then [(prev.md, prev.tvd), (r.md, r.tvd)] else []) ++
      (if rest.isEmpty then [(r.md, r.tvd)] else []) ++ packer_loop r rest

/-- Annulus-zone counter (`get_packer`, complot.py lines 555-568): the zone
id of row i is the previous id plus one at a boundary crossing, unchanged
otherwise; the first row has zone id 1. -/
def zone_loop (prev : SegRow) (z : Int) : List SegRow → List Int
  | [] => []
  | r :: rest =>
    let z2 := if r.outlet ≠ prev.seg then z + 1 else z
    z2 :: zone_loop r z2 rest

/-- Packer/zone table construction (`get_packer`, complot.py lines 545-582):
with more than one declared annulus segment, the WELSEGS rows matching the
selection are walked (the first matching row seeds the packer list and zone
id 1); with at most one declared segment two empty tables are returned.
`none` models the `IndexError` of `iloc[0]` when the selection matches no
WELSEGS row. -/
def get_packer (rows : List SegRow) (sel : List Int) :
    Option (List (ℚ × ℚ) × List (Int × ℚ × Int)) :=
  if 1 < sel.length then
    match annulus_rows rows sel with
    | [] => none
    | r0 :: rest =>
      some ((r0.md, r0.tvd) :: packer_loop r0 rest,
        List.zipWith (fun (r : SegRow) (z : Int) => (r.seg, r.md, z))
          (r0 :: rest) (1 :: zone_loop r0 1 rest))
  else some ([], [])

theorem packer_loop_cons (prev r : SegRow) (rest : List SegRow) :
    packer_loop prev (r :: rest) =
      (if r.outlet ≠ prev.seg then [(prev.md, prev.tvd), (r.md, r.tvd)] else []) ++
        (if rest.isEmpty then [(r.md, r.tvd)] else []) ++ packer_loop r rest := rfl

theorem packer_loop_length_mod (prev r : SegRow) (l : List SegRow) :
    (packer_loop prev (r :: l)).length % 2 = 1 := by
  induction l generalizing prev r with
  | nil => by_cases hb : r.outlet ≠ prev.seg <;> simp [packer_loop, hb]
  | cons r2 rest2 ih =>
    have hodd := ih r r2
    rw [packer_loop_cons]
    simp only [List.isEmpty_cons, List.length_append]
    by_cases hb : r.outlet ≠ prev.seg
    · rw [if_pos hb]
      simp only [List.length_cons, List.length_nil, Bool.false_eq_true,
        if_false]
      omega
    · rw [if_neg hb]
      simp only [List.length_nil, Bool.false_eq_true, if_false]
      omega

/-- C5 fails as stated: with the two-segment selection [5, 6] of which only
segment 5 is present in WELSEGS, the packer table has a single entry — odd
cardinality — instead of the claimed even cardinality (and instead of the
claimed empty table, which the code reserves for selections shorter
than 2). -/
theorem claim_C5_counterexample :
    1 < ([5, 6] : List Int).length ∧
      get_packer [⟨5, 2, 1000, 900⟩] [5, 6] =
        some ([((1000 : ℚ), (900 : ℚ))], [((5 : Int), (1000 : ℚ), (1 : Int))]) ∧
      ¬Even ([((1000 : ℚ), (900 : ℚ))] : List (ℚ × ℚ)).length := by
  refine ⟨by norm_num, ?_, by decide⟩
  norm_num [get_packer, annulus_rows, packer_loop, zone_loop]

/-- C5 (amended): with a declared annulus selection shorter than 2 the
result is two empty tables; with a longer selection, the packer table has
even cardinality provided at least two of the selected segments are present
in the WELSEGS rows (with exactly one matching row the table has a single,
odd entry). -/
theorem claim_C5_amended (rows : List SegRow) (sel : List Int) :
    (sel.length < 2 → get_packer rows sel = some ([], [])) ∧
      (1 < sel.length → 2 ≤ (annulus_rows rows sel).length →
        get_packer rows sel ≠ none) ∧
      (1 < sel.length → 2 ≤ (annulus_rows rows sel).length →
        ∀ p z, get_packer rows sel = some (p, z) → Even p.length) := by
  refine ⟨fun h => ?_, fun hsel hlen => ?_, fun hsel hlen p z hpz => ?_⟩
  · unfold get_packer
    rw [if_neg (by omega)]
  · unfold get_packer
    rw [if_pos hsel]
    cases har : annulus_rows rows sel with
    | nil => rw [har] at hlen; simp at hlen
    | cons r0 rest => simp
  · unfold get_packer at hpz
    rw [if_pos hsel] at hpz
    cases har : annulus_rows rows sel with
    | nil => rw [har] at hlen; simp at hlen
    | cons r0 rest =>
      rw [har] at hpz hlen
      cases rest with
      | nil => simp at hlen
      | cons r1 rest2 =>
        have hmod := packer_loop_length_mod r0 r1 rest2
        have hp : p = (r0.md, r0.tvd) :: packer_loop r0 (r1 :: rest2) := by
          have := (Option.some.inj hpz)
          exact (congrArg Prod.fst this).symm
        rw [hp, Nat.even_iff]
        simp only [List.length_cons]
        omega

/-- Concrete annulus rows used to witness C5: three selected segments with
one zone-boundary crossing (outlet 3 of segment 7 differs from segment 6). -/
def exC5rows : List SegRow :=
  [⟨5, 2, 1000, 950⟩, ⟨6, 5, 1100, 960⟩, ⟨7, 3, 1200, 970⟩]

theorem claim_C5_witness :
    get_packer [] [(1 : Int)] = some ([], []) ∧
      Even ([((1000 : ℚ), (950 : ℚ)), (1100, 960), (1200, 970),
        (1200, 970)] : List (ℚ × ℚ)).length := by
  constructor
  · exact (claim_C5_amended [] [(1 : Int)]).1 (by norm_num)
  · refine (claim_C5_amended exC5rows [5, 6, 7]).2.2 (by norm_num)
      (by norm_num [annulus_rows, exC5rows])
      _ (List.zipWith (fun (r : SegRow) (z : Int) => (r.seg, r.md, z))
        (annulus_rows exC5rows [5, 6, 7])
        (1 :: zone_loop ⟨5, 2, 1000, 950⟩ 1 [⟨6, 5, 1100, 960⟩, ⟨7, 3, 1200, 970⟩])) ?_
    norm_num [get_packer, annulus_rows, packer_loop, zone_loop, exC5rows]

/-- Fatal error conditions of the per-well pipeline: the malformed-interval
and count-mismatch errors of `get_info_per_well` (complot.py lines 455-497),
the `IndexError` of nearest-day lookup on an empty day axis
(`get_day_index`, line 609), and the `UnboundLocalError` on reading the
never-assigned accumulator `df_all` in `get_data`. -/
inductive CError where
  | badTubing
  | badDevice
  | deviceCountMismatch
  | badAnnulus
  | indexError
  | unboundLocal
deriving DecidableEq

/-- First index of an exact day match
(`get_day_index`, complot.py lines 598-601: `np.argwhere(eclipse_days == day)`
followed by `idx[0]`). -/
def find_exact (day : ℚ) : List ℚ → Option Nat
  | [] => none
  | d :: rest => if d = day then some 0 else (find_exact day rest).map (· + 1)

/-- Index of the first day of minimum absolute difference to the requested
day (`get_day_index`, complot.py lines 606-609:
`np.argsort(abs(eclipse_days - day))` followed by `idx[0]`; numpy argsort on
these small arrays keeps the first occurrence among ties). Also returns the
minimum difference itself. -/
def argmin_abs (day : ℚ) : List ℚ → Option (Nat × ℚ)
  | [] => none
  | d :: rest =>
    match argmin_abs day rest with
    | none => some (0, |d - day|)
    | some jv => if |d - day| ≤ jv.2 then some (0, |d - day|) else some (jv.1 + 1, jv.2)

theorem argmin_abs_cons (day d : ℚ) (rest : List ℚ) :
    argmin_abs day (d :: rest) =
      match argmin_abs day rest with
      | none => some (0, |d - day|)
      | some jv =>
        if |d - day| ≤ jv.2 then some (0, |d - day|) else some (jv.1 + 1, jv.2) := rfl

/-- Resolution of one requested day (`get_day_index`, complot.py lines
597-609): exact first match, else a warning (the `true` flag) and the
nearest available day; an empty day axis raises `IndexError`. -/
def resolve_day (eclipse_days : List ℚ) (day : ℚ) : Except CError (Nat × Bool) :=
  match find_exact day eclipse_days with
  | some i => Except.ok (i, false)
  | none =>
    match argmin_abs day eclipse_days with
    | some jv => Except.ok (jv.1, true)
    | none => Except.error CError.indexError

/-- Day-index resolver (`get_day_index`, complot.py lines 584-610): one
index per requested day, in order. -/
def get_day_index (eclipse_days : List ℚ) : List ℚ → Except CError (List (Nat × Bool))
  | [] => Except.ok []
  | day :: rest =>
    match resolve_day eclipse_days day, get_day_index eclipse_days rest with
    | Except.ok r, Except.ok rs => Except.ok (r :: rs)
    | Except.error e, _ => Except.error e
    | Except.ok _, Except.error e => Except.error e

/-- Specification of one resolved day, following the claim: a valid index;
on an exact match, the first occurrence and no warning; otherwise a warning
and an index minimizing the absolute difference. -/
def day_resolution_ok (eclipse : List ℚ) (day : ℚ) (r : Nat × Bool) : Prop :=
  r.1 < eclipse.length ∧
    (day ∈ eclipse → r.2 = false ∧ eclipse.getD r.1 0 = day ∧
      ∀ j, j < r.1 → eclipse.getD j 0 ≠ day) ∧
    (day ∉ eclipse → r.2 = true ∧
      ∀ i, i < eclipse.length →
        |eclipse.getD r.1 0 - day| ≤ |eclipse.getD i 0 - day|)

theorem find_exact_some (day : ℚ) (l : List ℚ) (i : Nat)
    (h : find_exact day l = some i) :
    i < l.length ∧ l.getD i 0 = day ∧ ∀ j, j < i → l.getD j 0 ≠ day := by
  induction l generalizing i with
  | nil => simp [find_exact] at h
  | cons d rest ih =>
    by_cases hd : d = day
    · rw [find_exact, if_pos hd] at h
      obtain rfl : (0 : Nat) = i := Option.some.inj h
      exact ⟨by simp, by simpa using hd, fun j hj => absurd hj (Nat.not_lt_zero j)⟩
    · rw [find_exact, if_neg hd] at h
      rw [Option.map_eq_some'] at h
      obtain ⟨i0, hi0, rfl⟩ := h
      obtain ⟨h1, h2, h3⟩ := ih i0 hi0
      refine ⟨by simpa using h1, by simpa using h2, ?_⟩
      intro j hj
      cases j with
      | zero => simpa using hd
      | succ j => simpa using h3 j (Nat.lt_of_succ_lt_succ hj)

theorem find_exact_none (day : ℚ) (l : List ℚ) :
    find_exact day l = none ↔ day ∉ l := by
  induction l with
  | nil => simp [find_exact]
  | cons d rest ih =>
    by_cases hd : d = day
    · rw [find_exact, if_pos hd]
      simp [hd]
    · rw [find_exact, if_neg hd]
      simp only [Option.map_eq_none', ih, List.mem_cons]
      constructor
      · rintro h (rfl | hm)
        · exact hd rfl
        · exact h hm
      · intro h hm
        exact h (Or.inr hm)

theorem argmin_abs_spec (day : ℚ) (l : List ℚ) (hl : l ≠ []) :
    ∃ j v, argmin_abs day l = some (j, v) ∧ j < l.length ∧
      v = |l.getD j 0 - day| ∧ ∀ i, i < l.length → v ≤ |l.getD i 0 - day| := by
  induction l with
  | nil => exact absurd rfl hl
  | cons d rest ih =>
    cases rest with
    | nil =>
      refine ⟨0, |d - day|, by simp [argmin_abs], by simp, by simp, ?_⟩
      intro i hi
      obtain rfl : i = 0 := by simpa using Nat.lt_one_iff.mp (by simpa using hi)
      simp
    | cons d2 rest2 =>
      obtain ⟨j, v, heq, hj, hv, hmin⟩ := ih (by simp)
      by_cases hle : |d - day| ≤ v
      · refine ⟨0, |d - day|, ?_, by simp, by simp, ?_⟩
        · rw [argmin_abs_cons, heq]
          simp [hle]
        · intro i hi
          cases i with
          | zero => simp
          | succ i =>
            simp only [List.getD_cons_succ]
            exact le_trans hle (hmin i (by simpa using Nat.lt_of_succ_lt_succ hi))
      · refine ⟨j + 1, v, ?_, by simpa using Nat.succ_lt_succ hj, by simpa using hv, ?_⟩
        · rw [argmin_abs_cons, heq]
          simp [hle]
        · intro i hi
          cases i with
          | zero =>
            simpa using le_of_lt (not_le.mp hle)
          | succ i =>
            simpa using hmin i (by simpa using Nat.lt_of_succ_lt_succ hi)

theorem resolve_day_spec (eclipse : List ℚ) (day : ℚ) (h : eclipse ≠ []) :
    ∃ r : Nat × Bool, resolve_day eclipse day = Except.ok r ∧
      day_resolution_ok eclipse day r := by
  cases hfe : find_exact day eclipse with
  | some i =>
    obtain ⟨hi, hgd, hfirst⟩ := find_exact_some day eclipse i hfe
    refine ⟨(i, false), by simp [resolve_day, hfe], hi, fun _ => ⟨rfl, hgd, hfirst⟩,
      fun hnm => ?_⟩
    refine absurd ?_ hnm
    rw [← hgd, List.getD_eq_getElem eclipse 0 hi]
    exact List.getElem_mem hi
  | none =>
    have hnm : day ∉ eclipse := (find_exact_none day eclipse).mp hfe
    obtain ⟨j, v, heq, hj, hv, hmin⟩ := argmin_abs_spec day eclipse h
    refine ⟨(j, true), by simp [resolve_day, hfe, heq], hj,
      fun hm => absurd hm hnm, fun _ => ⟨rfl, ?_⟩⟩
    intro i hi
    calc |eclipse.getD j 0 - day| = v := hv.symm
    _ ≤ |eclipse.getD i 0 - day| := hmin i hi

theorem get_day_index_spec (eclipse : List ℚ) (h : eclipse ≠ []) (days : List ℚ) :
    ∃ out, get_day_index eclipse days = Except.ok out ∧
      out.length = days.length ∧
      ∀ k, k < days.length →
        day_resolution_ok eclipse (days.getD k 0) (out.getD k (0, false)) := by
  induction days with
  | nil => exact ⟨[], rfl, rfl, fun k hk => absurd hk (Nat.not_lt_zero k)⟩
  | cons day rest ih =>
    obtain ⟨r, hr, hok⟩ := resolve_day_spec eclipse day h
    obtain ⟨out, hout, hlen, hprops⟩ := ih
    refine ⟨r :: out, ?_, by simpa using hlen, ?_⟩
    · rw [get_day_index, hr, hout]
    · intro k hk
      cases k with
      | zero => simpa using hok
      | succ k => simpa using hprops k (Nat.lt_of_succ_lt_succ hk)

/-- C6: for a non-empty available-day axis the resolver returns one index
per requested day in order; exact matches resolve to the first occurrence
without warning, and otherwise a warning is flagged and the index minimizes
the absolute difference; available [0, 10, 20, 30] with requested [10, 15]
yields indices [1, 1] with a warning only for the second. -/
theorem claim_C6_day_resolver (eclipse days : List ℚ) (h : eclipse ≠ []) :
    (∃ out, get_day_index eclipse days = Except.ok out ∧
        out.length = days.length ∧
        ∀ k, k < days.length →
          day_resolution_ok eclipse (days.getD k 0) (out.getD k (0, false))) ∧
      get_day_index [0, 10, 20, 30] [10, 15] =
        Except.ok [(1, false), (1, true)] := by
  refine ⟨get_day_index_spec eclipse h days, ?_⟩
  have a0 : |(0 : ℚ) - 15| = 15 := by
    rw [abs_of_nonpos (by norm_num)]
    norm_num
  have a1 : |(10 : ℚ) - 15| = 5 := by
    rw [abs_of_nonpos (by norm_num)]
    norm_num
  have a2 : |(20 : ℚ) - 15| = 5 := by
    rw [abs_of_nonneg (by norm_num)]
    norm_num
  have a3 : |(30 : ℚ) - 15| = 15 := by
    rw [abs_of_nonneg (by norm_num)]
    norm_num
  norm_num [get_day_index, resolve_day, find_exact, argmin_abs, a0, a1, a2, a3]

theorem claim_C6_witness :
    get_day_index [0, 10, 20, 30] [10, 15] = Except.ok [(1, false), (1, true)] :=
  (claim_C6_day_resolver [0, 10, 20, 30] [10, 15] (by simp)).2

/-- Integer interval expansion `np.arange(start, end + 1)` used for the
TUBINGSEGMENT, DEVICESEGMENT and ANNULUSSEGMENT interval specs
(`get_info_per_well`, complot.py lines 461-463, 471-473, 491-493). -/
def int_range (s e : Int) : List Int :=
  (List.range (e + 1 - s).toNat).map (fun k => s + (k : Int))

/-- One column entry of the INFORMATION keyword, already split on dashes:
either the `1*` sentinel or the list of dash-separated integer fields. -/
inductive InfoField where
  | star1 : InfoField
  | fields : List Int → InfoField

/-- Tubing-segment spec parsing (`get_info_per_well`, complot.py lines
450-463): the sentinel yields the single placeholder segment `np.zeros(1)`;
exactly two dash-separated bounds expand to the closed interval; anything
else is a fatal spec error. -/
def parse_tubing : InfoField → Except CError (List Int)
  | InfoField.star1 => Except.ok [0]
  | InfoField.fields l =>
    match l with
    | [s, e] => Except.ok (int_range s e)
    | _ => Except.error CError.badTubing

/-- Device-segment spec parsing with the count check against the tubing
segments (`get_info_per_well`, complot.py lines 464-483). -/
def parse_device (tubing : List Int) : InfoField → Except CError (List Int)
  | InfoField.star1 => Except.ok [0]
  | InfoField.fields l =>
    match l with
    | [s, e] =>
      if tubing.length ≠ (int_range s e).length then
        Except.error CError.deviceCountMismatch
      else Except.ok (int_range s e)
    | _ => Except.error CError.badDevice

/-- Annulus-segment spec parsing (`get_info_per_well`, complot.py lines
484-497). -/
def parse_annulus : InfoField → Except CError (List Int)
  | InfoField.star1 => Except.ok [0]
  | InfoField.fields l =>
    match l with
    | [s, e] => Except.ok (int_range s e)
    | _ => Except.error CError.badAnnulus

/-- DAYS column parsing (`get_info_per_well`, complot.py lines 498-507):
the sentinel defaults to the first time step `np.zeros(1)`. -/
def parse_days : Option (List ℚ) → List ℚ
  | none => [0]
  | some l => l

/-- Per-well configuration reader (`get_info_per_well`, complot.py lines
424-508): tubing, device (with the count check), annulus and days, in the
order the source evaluates them. -/
def get_info_per_well (tub dev ann : InfoField) (days : Option (List ℚ)) :
    Except CError (List Int × List Int × List Int × List ℚ) :=
  match parse_tubing tub with
  | Except.error e => Except.error e
  | Except.ok t =>
    match parse_device t dev with
    | Except.error e => Except.error e
    | Except.ok d =>
      match parse_annulus ann with
      | Except.error e => Except.error e
      | Except.ok a => Except.ok (t, d, a, parse_days days)

/-- Reading the accumulator `df_all` of `get_data`: `none` models the
variable before its first assignment, so reading it raises
`UnboundLocalError`. -/
def useAcc (acc : Option (List String)) : Except CError (List String) :=
  match acc with
  | none => Except.error CError.unboundLocal
  | some t => Except.ok t

/-- Device section of `get_data` (complot.py lines 796-865): `df_all` is
first assigned inside the per-timestep loop, which itself sits under the
guard `len(self.device_segment) > 1`; outside that branch the accumulator
stays unassigned. The row batches are abstracted to section tags. -/
def device_section (n_device : Nat) (days_idx : List Nat) : Option (List String) :=
  if 1 < n_device then
    days_idx.foldl (fun acc _ =>
      match acc with
      | none => some ["Device"]
      | some t => some (t ++ ["Device"])) none
  else none

/-- Per-timestep accumulation loop of the tubing, annulus and reservoir
sections of `get_data` (complot.py lines 869-937, 942-997, 1018-1154): each
iteration reads `df_all` (`pd.concat([df_all, data_frame])`) and appends
the section's batch. -/
def section_loop (tag : String) :
    List Nat → Option (List String) → Except CError (Option (List String))
  | [], acc => Except.ok acc
  | _ :: rest, acc =>
    match useAcc acc with
    | Except.error e => Except.error e
    | Except.ok t => section_loop tag rest (some (t ++ [tag]))

/-- Accumulator skeleton of `get_data` (complot.py lines 760-1209): device
section (guarded), tubing section (always), annulus section (guarded by
`len(annulus_segment) > 1`), the unconditional `df_all` column casts of
lines 999-1015, the reservoir section (always), and the final read of
`df_all` into `df_output` (line 1209). -/
def get_data (n_device n_annulus : Nat) (days_idx : List Nat) :
    Except CError (List String) :=
  match section_loop "Tubing" days_idx (device_section n_device days_idx) with
  | Except.error e => Except.error e
  | Except.ok acc1 =>
    match (if 1 < n_annulus then section_loop "Annulus" days_idx acc1
        else Except.ok acc1) with
    | Except.error e => Except.error e
    | Except.ok acc2 =>
      match useAcc acc2 with
      | Except.error e => Except.error e
      | Except.ok t =>
        match section_loop "Reservoir" days_idx (some t) with
        | Except.error e => Except.error e
        | Except.ok acc3 => useAcc acc3

/-- Per-well driver (complot.py lines 1744-1762): configuration is read
first, then the day indices are resolved, then `get_data` runs; an error in
an earlier step aborts before the later steps. -/
def process_well (tub dev ann : InfoField) (days : Option (List ℚ))
    (eclipse_days : List ℚ) : Except CError (List String) :=
  match get_info_per_well tub dev ann days with
  | Except.error e => Except.error e
  | Except.ok info =>
    match get_day_index eclipse_days info.2.2.2 with
    | Except.error e => Except.error e
    | Except.ok days_idx =>
      get_data info.2.1.length info.2.2.1.length (days_idx.map Prod.fst)

theorem section_loop_some (tag : String) (days : List Nat) :
    ∀ t : List String, ∃ t2, section_loop tag days (some t) = Except.ok (some t2) := by
  induction days with
  | nil => exact fun t => ⟨t, rfl⟩
  | cons d rest ih =>
    intro t
    obtain ⟨t2, h2⟩ := ih (t ++ [tag])
    exact ⟨t2, h2⟩

theorem section_loop_none (tag : String) (days : List Nat) (h : days ≠ []) :
    section_loop tag days none = Except.error CError.unboundLocal := by
  cases days with
  | nil => exact absurd rfl h
  | cons d rest => rfl

theorem section_loop_error (tag : String) (days : List Nat) :
    ∀ (acc : Option (List String)) (e : CError),
      section_loop tag days acc = Except.error e → e = CError.unboundLocal := by
  induction days with
  | nil =>
    intro acc e h
    exact absurd h (by simp [section_loop])
  | cons d rest ih =>
    intro acc e h
    cases acc with
    | none =>
      simp only [section_loop, useAcc] at h
      exact (Except.error.inj h).symm
    | some t =>
      simp only [section_loop, useAcc] at h
      exact ih (some (t ++ [tag])) e h

theorem useAcc_error (acc : Option (List String)) (e : CError)
    (h : useAcc acc = Except.error e) : e = CError.unboundLocal := by
  cases acc with
  | none => exact (Except.error.inj h).symm
  | some t => exact absurd h (by simp [useAcc])

theorem get_data_error (n_device n_annulus : Nat) (days_idx : List Nat)
    (e : CError) (h : get_data n_device n_annulus days_idx = Except.error e) :
    e = CError.unboundLocal := by
  unfold get_data at h
  cases h1 : section_loop "Tubing" days_idx (device_section n_device days_idx) with
  | error e1 =>
    simp only [h1] at h
    exact (Except.error.inj h) ▸ section_loop_error _ _ _ _ h1
  | ok acc1 =>
    simp only [h1] at h
    cases h2 : (if 1 < n_annulus then section_loop "Annulus" days_idx acc1
        else Except.ok acc1) with
    | error e2 =>
      simp only [h2] at h
      refine (Except.error.inj h) ▸ ?_
      by_cases hn : 1 < n_annulus
      · rw [if_pos hn] at h2
        exact section_loop_error _ _ _ _ h2
      · rw [if_neg hn] at h2
        exact absurd h2 (by simp)
    | ok acc2 =>
      simp only [h2] at h
      cases h3 : useAcc acc2 with
      | error e3 =>
        simp only [h3] at h
        exact (Except.error.inj h) ▸ useAcc_error _ _ h3
      | ok t =>
        simp only [h3] at h
        cases h4 : section_loop "Reservoir" days_idx (some t) with
        | error e4 =>
          simp only [h4] at h
          exact (Except.error.inj h) ▸ section_loop_error _ _ _ _ h4
        | ok acc3 =>
          simp only [h4] at h
          exact useAcc_error _ _ h

theorem resolve_day_error (eclipse : List ℚ) (day : ℚ) (e : CError)
    (h : resolve_day eclipse day = Except.error e) : e = CError.indexError := by
  unfold resolve_day at h
  cases hfe : find_exact day eclipse with
  | some i => rw [hfe] at h; exact absurd h (by simp)
  | none =>
    rw [hfe] at h
    cases ham : argmin_abs day eclipse with
    | some jv => rw [ham] at h; exact absurd h (by simp)
    | none => rw [ham] at h; exact (Except.error.inj h).symm

theorem get_day_index_error (eclipse : List ℚ) (days : List ℚ) :
    ∀ e : CError, get_day_index eclipse days = Except.error e →
      e = CError.indexError := by
  induction days with
  | nil =>
    intro e h
    exact absurd h (by simp [get_day_index])
  | cons day rest ih =>
    intro e h
    unfold get_day_index at h
    cases hr : resolve_day eclipse day with
    | error e1 =>
      rw [hr] at h
      exact (Except.error.inj h) ▸ resolve_day_error _ _ _ hr
    | ok r =>
      rw [hr] at h
      cases hrest : get_day_index eclipse rest with
      | error e2 =>
        rw [hrest] at h
        exact (Except.error.inj h) ▸ ih e2 hrest
      | ok rs => rw [hrest] at h; exact absurd h (by simp)

theorem device_foldl_some (days : List Nat) :
    ∀ t : List String,
      ∃ t2, days.foldl (fun acc _ =>
        match acc with
        | none => some ["Device"]
        | some t0 => some (t0 ++ ["Device"])) (some t) = some t2 := by
  induction days with
  | nil => exact fun t => ⟨t, rfl⟩
  | cons d rest ih =>
    intro t
    obtain ⟨t2, h2⟩ := ih (t ++ ["Device"])
    exact ⟨t2, h2⟩

/-- C10: whenever the device-segment list has at most one entry (the `1*`
sentinel included), `get_data` raises an uncaught `UnboundLocalError`
before producing any output, because the tubing/reservoir accumulation
reads `df_all`, which is only ever first assigned inside the device branch
guarded by `len(device_segment) > 1`; with more than one device segment and
at least one timestep the assembly succeeds. -/
theorem claim_C10_df_all_unbound (n_device n_annulus : Nat) (days_idx : List Nat) :
    (n_device ≤ 1 →
        get_data n_device n_annulus days_idx = Except.error CError.unboundLocal) ∧
      (1 < n_device → days_idx ≠ [] →
        ∃ t, get_data n_device n_annulus days_idx = Except.ok t) := by
  constructor
  · intro hdev
    have hds : device_section n_device days_idx = none := by
      unfold device_section
      rw [if_neg (by omega)]
    cases days_idx with
    | nil => simp [get_data, hds, section_loop, useAcc]
    | cons d rest =>
      have h1 := section_loop_none "Tubing" (d :: rest) (by simp)
      simp [get_data, hds, h1]
  · intro hdev hne
    cases days_idx with
    | nil => exact absurd rfl hne
    | cons d rest =>
      have hds : ∃ t0, device_section n_device (d :: rest) = some t0 := by
        unfold device_section
        rw [if_pos hdev]
        simpa using device_foldl_some rest ["Device"]
      obtain ⟨t0, hds⟩ := hds
      obtain ⟨t1, h1⟩ := section_loop_some "Tubing" (d :: rest) t0
      by_cases hn : 1 < n_annulus
      · obtain ⟨t2, h2⟩ := section_loop_some "Annulus" (d :: rest) t1
        obtain ⟨t3, h3⟩ := section_loop_some "Reservoir" (d :: rest) t2
        refine ⟨t3, ?_⟩
        simp only [get_data, hds, h1, if_pos hn, h2, useAcc, h3]
      · obtain ⟨t3, h3⟩ := section_loop_some "Reservoir" (d :: rest) t1
        refine ⟨t3, ?_⟩
        simp only [get_data, hds, h1, if_neg hn, useAcc, h3]

theorem claim_C10_witness :
    get_data 1 0 [0] = Except.error CError.unboundLocal ∧
      get_data 2 0 [0] ≠ Except.error CError.unboundLocal := by
  constructor
  · exact (claim_C10_df_all_unbound 1 0 [0]).1 (by norm_num)
  · obtain ⟨t, ht⟩ := (claim_C10_df_all_unbound 2 0 [0]).2 (by norm_num) (by simp)
    rw [ht]
    simp

/-- C8: with both tubing and device specs given as intervals, reading the
per-well configuration fails with the device/tubing count-mismatch error
exactly when the expanded interval lengths differ, and the failure occurs
in `get_info_per_well`, before day resolution or `get_data` run in the
per-well driver; with equal counts that error never surfaces. -/
theorem claim_C8_device_tubing_count (ts te ds de : Int) (ann : InfoField)
    (days : Option (List ℚ)) (eclipse_days : List ℚ) :
    ((int_range ts te).length ≠ (int_range ds de).length →
        process_well (InfoField.fields [ts, te]) (InfoField.fields [ds, de]) ann
            days eclipse_days = Except.error CError.deviceCountMismatch) ∧
      ((int_range ts te).length = (int_range ds de).length →
        process_well (InfoField.fields [ts, te]) (InfoField.fields [ds, de]) ann
            days eclipse_days ≠ Except.error CError.deviceCountMismatch) := by
  constructor
  · intro hne
    simp [process_well, get_info_per_well, parse_tubing, parse_device, hne]
  · intro heq
    have hdev : parse_device (int_range ts te) (InfoField.fields [ds, de]) =
        Except.ok (int_range ds de) := by
      simp [parse_device, heq]
    simp only [process_well, get_info_per_well, parse_tubing, hdev]
    cases hann : parse_annulus ann with
    | error e =>
      have he : e = CError.badAnnulus := by
        unfold parse_annulus at hann
        cases ann with
        | star1 => exact absurd hann (by simp)
        | fields l =>
          rcases l with _ | ⟨x, _ | ⟨y, _ | _⟩⟩ <;>
            first
              | exact (Except.error.inj hann).symm
              | exact absurd hann (by simp)
      subst he
      simp
    | ok a =>
      cases hgdi : get_day_index eclipse_days (parse_days days) with
      | error e =>
        have := get_day_index_error eclipse_days (parse_days days) e hgdi
        subst this
        simp [hgdi]
      | ok di =>
        intro hcon
        simp only [hgdi] at hcon
        have := get_data_error _ _ _ _ hcon
        exact absurd this (by simp)

theorem claim_C8_witness :
    process_well (InfoField.fields [1, 3]) (InfoField.fields [1, 2])
        InfoField.star1 none [0] = Except.error CError.deviceCountMismatch ∧
      process_well (InfoField.fields [1, 3]) (InfoField.fields [4, 6])
          InfoField.star1 none [0] ≠ Except.error CError.deviceCountMismatch := by
  constructor
  · exact (claim_C8_device_tubing_count 1 3 1 2 InfoField.star1 none [0]).1
      (by decide)
  · exact (claim_C8_device_tubing_count 1 3 4 6 InfoField.star1 none [0]).2
      (by decide)

/-- Value of one CF/KH cell as it sits in a pandas column: a float, the NaN
produced for left-join misses, or a non-numeric text entry. -/
inductive CellVal where
  | num (q : ℚ)
  | nan
  | text
deriving DecidableEq

/-- Left-join lookup of a static property by (I, J, K) cell coordinate
(`get_md`, complot.py lines 732-738, `pd.merge(..., how="left")`): an
unmatched coordinate yields NaN. -/
def lookup_static (compdat : List ((Int × Int × Int) × CellVal))
    (c : Int × Int × Int) : CellVal :=
  match compdat.find? (fun e => e.1 = c) with
  | some e => e.2
  | none => CellVal.nan

/-- The merged CF (or KH) column: one looked-up value per segment row. -/
def merged_static (rows : List (Int × Int × Int))
    (compdat : List ((Int × Int × Int) × CellVal)) : List CellVal :=
  rows.map (lookup_static compdat)

/-- Whether `astype(np.float64)` succeeds on one entry: floats and NaN cast,
text does not. -/
def is_castable : CellVal → Bool
  | CellVal.num _ => true
  | CellVal.nan => true
  | CellVal.text => false

/-- The column-level cast of `get_data` (complot.py lines 1004-1012):
`df_all["CF"].astype(np.float64)` inside try/except — if every entry casts
the column is kept as is (NaN included), otherwise the `except` branch
overwrites the whole column with the sentinel 1e-10. -/
def astype_or_sentinel (col : List CellVal) : List CellVal :=
  if col.all is_castable then col
  else col.map (fun _ => CellVal.num (1 / 10000000000))

/-- The CF (or KH) column as `get_data` leaves it: the left-joined values
passed through the column-level cast. -/
def final_static (rows : List (Int × Int × Int))
    (compdat : List ((Int × Int × Int) × CellVal)) : List CellVal :=
  astype_or_sentinel (merged_static rows compdat)

/-- The column C9 describes, modelled from the claim's words: per row, an
unmatched coordinate or a non-numeric source value becomes the sentinel
1e-10, and every other row keeps its joined numeric value. -/
def claimed_static (rows : List (Int × Int × Int))
    (compdat : List ((Int × Int × Int) × CellVal)) : List CellVal :=
  rows.map (fun c =>
    match lookup_static compdat c with
    | CellVal.num q => CellVal.num q
    | _ => CellVal.num (1 / 10000000000))

/-- C9 fails as stated: one non-numeric entry makes the column-level
`astype` throw, so the `except` branch overwrites the whole column —
including the row whose joined value was the numeric 5 — with 1e-10; and
with all-numeric data an unmatched coordinate keeps its left-join NaN
rather than becoming 1e-10. -/
theorem claim_C9_counterexample :
    final_static [(1, 1, 1), (2, 2, 2)]
        [((1, 1, 1), CellVal.num 5), ((2, 2, 2), CellVal.text)] ≠
      claimed_static [(1, 1, 1), (2, 2, 2)]
        [((1, 1, 1), CellVal.num 5), ((2, 2, 2), CellVal.text)] ∧
    final_static [(3, 3, 3)] [] ≠ claimed_static [(3, 3, 3)] [] := by
  constructor
  · have hL : final_static [(1, 1, 1), (2, 2, 2)]
        [((1, 1, 1), CellVal.num 5), ((2, 2, 2), CellVal.text)] =
        [CellVal.num (1 / 10000000000), CellVal.num (1 / 10000000000)] := rfl
    have hR : claimed_static [(1, 1, 1), (2, 2, 2)]
        [((1, 1, 1), CellVal.num 5), ((2, 2, 2), CellVal.text)] =
        [CellVal.num 5, CellVal.num (1 / 10000000000)] := rfl
    rw [hL, hR]
    intro hcon
    have h1 := (List.cons.injEq _ _ _ _ ▸ hcon).1
    have h2 : (1 / 10000000000 : ℚ) = 5 := CellVal.num.injEq _ _ ▸ h1
    norm_num at h2
  · have hL : final_static [(3, 3, 3)] [] = [CellVal.nan] := rfl
    have hR : claimed_static [(3, 3, 3)] [] =
        [CellVal.num (1 / 10000000000)] := rfl
    rw [hL, hR]
    simp

/-- C9 (amended): the sentinel is applied at column level, not per row — if
any value in the well's merged CF (or KH) column is non-numeric, the entire
column is overwritten with 1e-10, numeric rows included; if every value
casts, rows keep their joined values, and a coordinate without a match in
the static-property table yields NaN (missing), not 1e-10. -/
theorem claim_C9_amended (rows : List (Int × Int × Int))
    (compdat : List ((Int × Int × Int) × CellVal)) :
    ((merged_static rows compdat).all is_castable = true →
        final_static rows compdat = merged_static rows compdat) ∧
      ((merged_static rows compdat).all is_castable = false →
        final_static rows compdat =
          (merged_static rows compdat).map (fun _ => CellVal.num (1 / 10000000000))) ∧
      (∀ c ∈ rows, compdat.find? (fun e => e.1 = c) = none →
        lookup_static compdat c = CellVal.nan) ∧
      (∀ c ∈ rows, ∀ e2, compdat.find? (fun e => e.1 = c) = some e2 →
        lookup_static compdat c = e2.2) := by
  refine ⟨fun h => ?_, fun h => ?_, fun c _ hf => ?_, fun c _ e2 hf => ?_⟩
  · unfold final_static astype_or_sentinel
    rw [if_pos h]
  · unfold final_static astype_or_sentinel
    rw [if_neg (by simp [h])]
  · simp [lookup_static, hf]
  · simp [lookup_static, hf]

theorem claim_C9_witness :
    final_static [(1, 1, 1)] [((1, 1, 1), CellVal.num 5)] =
        merged_static [(1, 1, 1)] [((1, 1, 1), CellVal.num 5)] ∧
      final_static [(9, 9, 9)] [((9, 9, 9), CellVal.text)] =
        (merged_static [(9, 9, 9)] [((9, 9, 9), CellVal.text)]).map
          (fun _ => CellVal.num (1 / 10000000000)) ∧
      lookup_static [] ((7 : Int), (7 : Int), (7 : Int)) = CellVal.nan := by
  refine ⟨?_, ?_, ?_⟩
  · exact (claim_C9_amended [(1, 1, 1)] [((1, 1, 1), CellVal.num 5)]).1
      (by simp [merged_static, lookup_static, is_castable])
  · exact (claim_C9_amended [(9, 9, 9)] [((9, 9, 9), CellVal.text)]).2.1
      (by simp [merged_static, lookup_static, is_castable])
  · exact (claim_C9_amended [((7 : Int), (7 : Int), (7 : Int))] []).2.2.1
      ((7 : Int), (7 : Int), (7 : Int)) (by simp) (by simp)

/-- Default row backing the positional accesses below; the loop only reads
positions that exist. -/
def dummyRow : CompRow := ⟨0, 0, 0, 0, 0⟩

/-- STARTMD of completion row i (`compsegs["STARTMD"].iloc[i]`). -/
def startAt (comps : List CompRow) (i : Nat) : ℚ :=
  (comps.getD i dummyRow).startmd

/-- ENDMD of completion row i (`compsegs["ENDMD"].iloc[i]`). -/
def endAt (comps : List CompRow) (i : Nat) : ℚ :=
  (comps.getD i dummyRow).endmd

/-- The new-branch test of `get_md` (complot.py lines 655-667): row idx has
at least 3 following rows and the STARTMD of each of the next 3 rows is
strictly below ENDMD of row idx. -/
def is_branch_boundary (comps : List CompRow) (idx : Nat) : Prop :=
  idx + 3 < comps.length ∧
    startAt comps (idx + 1) < endAt comps idx ∧
    startAt comps (idx + 2) < endAt comps idx ∧
    startAt comps (idx + 3) < endAt comps idx

instance (comps : List CompRow) (idx : Nat) :
    Decidable (is_branch_boundary comps idx) :=
  inferInstanceAs (Decidable (_ ∧ _ ∧ _ ∧ _))

/-- The branch-selection loop of `get_md` (complot.py lines 651-677),
iterating idx over 0..n-1 with `fuel = n - idx`: at a boundary row the
lateral counter increments, `zrow` is set to idx and `a_row` to idx+1
(unless the requested lateral is reached, which breaks); in the trailing
region (`idx >= n - 3`) every iteration increments the counter and sets
`zrow` to the last row. Returns the final (a_row, zrow). -/
def branch_step (comps : List CompRow) (lateral : Nat) :
    Nat → Nat → Nat → Nat → Nat → Nat × Nat
  | 0, _, _, a_row, zrow => (a_row, zrow)
  | fuel + 1, idx, i_lat, a_row, zrow =>
    if idx + 3 < comps.length then
      if startAt comps (idx + 1) < endAt comps idx ∧
          startAt comps (idx + 2) < endAt comps idx ∧
          startAt comps (idx + 3) < endAt comps idx then
        if i_lat + 1 = lateral then (a_row, idx)
        else branch_step comps lateral fuel (idx + 1) (i_lat + 1) (idx + 1) idx
      else branch_step comps lateral fuel (idx + 1) i_lat a_row zrow
    else
      if i_lat + 1 = lateral then (a_row, comps.length - 1)
      else branch_step comps lateral fuel (idx + 1) (i_lat + 1) a_row
        (comps.length - 1)

/-- The (a_row, zrow) pair the loop leaves for the requested lateral. -/
def branch_loop (comps : List CompRow) (lateral : Nat) : Nat × Nat :=
  branch_step comps lateral comps.length 0 0 0 0

/-- The branch sub-table `compsegs.loc[a_row : zrow + 1, :]` (complot.py
line 678): pandas `.loc` slicing on the 0..n-1 row labels is inclusive of
both endpoint labels, clipped at the end of the table. -/
def get_md_branch (comps : List CompRow) (lateral : Nat) : List CompRow :=
  (comps.drop (branch_loop comps lateral).1).take
    ((branch_loop comps lateral).2 + 2 - (branch_loop comps lateral).1)

/-- Indices of the branch-boundary rows at or after idx, with
`fuel = n - idx`. -/
def bounds_from (comps : List CompRow) : Nat → Nat → List Nat
  | 0, _ => []
  | fuel + 1, idx =>
    (if is_branch_boundary comps idx then [idx] else []) ++
      bounds_from comps fuel (idx + 1)

/-- All branch-boundary row indices of the completion table, in order. -/
def boundaries (comps : List CompRow) : List Nat :=
  bounds_from comps comps.length 0

/-- Walk of the boundary list that mirrors what the selection loop leaves:
consuming one boundary per remaining lateral, the k-th boundary closes the
branch at that row with the accumulated start; past the last boundary the
branch closes at the last row of the table. -/
def spec_walk (n : Nat) : List Nat → Nat → Nat → Nat × Nat
  | [], _, a_row => (a_row, n - 1)
  | b :: rest, k, a_row =>
    if k ≤ 1 then (a_row, b) else spec_walk n rest (k - 1) (b + 1)

theorem bounds_from_succ (comps : List CompRow) (fuel idx : Nat) :
    bounds_from comps (fuel + 1) idx =
      (if is_branch_boundary comps idx then [idx] else []) ++
        bounds_from comps fuel (idx + 1) := rfl

theorem branch_step_succ (comps : List CompRow) (lateral fuel idx i_lat a_row zrow : Nat) :
    branch_step comps lateral (fuel + 1) idx i_lat a_row zrow =
      if idx + 3 < comps.length then
        if startAt comps (idx + 1) < endAt comps idx ∧
            startAt comps (idx + 2) < endAt comps idx ∧
            startAt comps (idx + 3) < endAt comps idx then
          if i_lat + 1 = lateral then (a_row, idx)
          else branch_step comps lateral fuel (idx + 1) (i_lat + 1) (idx + 1) idx
        else branch_step comps lateral fuel (idx + 1) i_lat a_row zrow
      else
        if i_lat + 1 = lateral then (a_row, comps.length - 1)
        else branch_step comps lateral fuel (idx + 1) (i_lat + 1) a_row
          (comps.length - 1) := rfl

theorem spec_walk_cons (n b k a : Nat) (rest : List Nat) :
    spec_walk n (b :: rest) k a =
      if k ≤ 1 then (a, b) else spec_walk n rest (k - 1) (b + 1) := rfl

theorem bounds_from_trailing (comps : List CompRow) :
    ∀ fuel idx, comps.length ≤ idx + 3 → bounds_from comps fuel idx = [] := by
  intro fuel
  induction fuel with
  | zero => intro idx h; rfl
  | succ fuel ih =>
    intro idx h
    rw [bounds_from_succ, if_neg (fun hb => absurd hb.1 (by omega)),
      List.nil_append]
    exact ih (idx + 1) (by omega)

theorem bounds_from_mem (comps : List CompRow) :
    ∀ fuel idx b, b ∈ bounds_from comps fuel idx →
      idx ≤ b ∧ is_branch_boundary comps b := by
  intro fuel
  induction fuel with
  | zero => intro idx b hb; simp [bounds_from] at hb
  | succ fuel ih =>
    intro idx b hb
    rw [bounds_from_succ] at hb
    by_cases hbd : is_branch_boundary comps idx
    · rw [if_pos hbd] at hb
      rcases List.mem_append.mp hb with h1 | h2
      · have hbi : b = idx := by simpa using h1
        exact ⟨le_of_eq hbi.symm, hbi.symm ▸ hbd⟩
      · obtain ⟨hle, hb2⟩ := ih (idx + 1) b h2
        exact ⟨by omega, hb2⟩
    · rw [if_neg hbd, List.nil_append] at hb
      obtain ⟨hle, hb2⟩ := ih (idx + 1) b hb
      exact ⟨by omega, hb2⟩

theorem bounds_from_sorted (comps : List CompRow) :
    ∀ fuel idx, (bounds_from comps fuel idx).Pairwise (· < ·) := by
  intro fuel
  induction fuel with
  | zero => intro idx; simp [bounds_from]
  | succ fuel ih =>
    intro idx
    rw [bounds_from_succ]
    by_cases hbd : is_branch_boundary comps idx
    · rw [if_pos hbd, List.singleton_append, List.pairwise_cons]
      refine ⟨fun b hb => ?_, ih (idx + 1)⟩
      have := (bounds_from_mem comps fuel (idx + 1) b hb).1
      omega
    · rw [if_neg hbd, List.nil_append]
      exact ih (idx + 1)

theorem branch_step_eq_walk (comps : List CompRow) (lateral : Nat) :
    ∀ fuel idx i_lat a_row zrow, idx + fuel = comps.length → i_lat < lateral →
      0 < fuel →
      branch_step comps lateral fuel idx i_lat a_row zrow =
        spec_walk comps.length (bounds_from comps fuel idx) (lateral - i_lat)
          a_row := by
  intro fuel
  induction fuel with
  | zero =>
    intro idx i_lat a_row zrow hlen hlat hpos
    exact absurd hpos (by omega)
  | succ fuel ih =>
    intro idx i_lat a_row zrow hlen hlat _
    rw [branch_step_succ]
    by_cases h3 : idx + 3 < comps.length
    · by_cases hc : startAt comps (idx + 1) < endAt comps idx ∧
          startAt comps (idx + 2) < endAt comps idx ∧
          startAt comps (idx + 3) < endAt comps idx
      · have hbd : is_branch_boundary comps idx := ⟨h3, hc⟩
        have hbs : bounds_from comps (fuel + 1) idx =
            idx :: bounds_from comps fuel (idx + 1) := by
          rw [bounds_from_succ, if_pos hbd, List.singleton_append]
        rw [if_pos h3, if_pos hc, hbs, spec_walk_cons]
        by_cases hbreak : i_lat + 1 = lateral
        · rw [if_pos hbreak, if_pos (by omega)]
        · rw [if_neg hbreak, if_neg (by omega)]
          have heq : lateral - i_lat - 1 = lateral - (i_lat + 1) := by omega
          rw [heq]
          exact ih (idx + 1) (i_lat + 1) (idx + 1) idx (by omega) (by omega)
            (by omega)
      · have hbd : ¬is_branch_boundary comps idx := fun hb => hc hb.2
        have hbs : bounds_from comps (fuel + 1) idx =
            bounds_from comps fuel (idx + 1) := by
          rw [bounds_from_succ, if_neg hbd, List.nil_append]
        rw [if_pos h3, if_neg hc, hbs]
        exact ih (idx + 1) i_lat a_row zrow (by omega) hlat (by omega)
    · have hbs : bounds_from comps (fuel + 1) idx = [] :=
        bounds_from_trailing comps (fuel + 1) idx (by omega)
      rw [if_neg h3, hbs]
      by_cases hbreak : i_lat + 1 = lateral
      · rw [if_pos hbreak]
        rfl
      · rw [if_neg hbreak]
        cases Nat.eq_zero_or_pos fuel with
        | inl h0 => subst h0; rfl
        | inr hpos =>
          rw [ih (idx + 1) (i_lat + 1) a_row (comps.length - 1) (by omega)
            (by omega) hpos]
          rw [bounds_from_trailing comps fuel (idx + 1) (by omega)]
          rfl

theorem branch_loop_eq_walk (comps : List CompRow) (lateral : Nat)
    (h : 1 ≤ lateral) (hne : comps ≠ []) :
    branch_loop comps lateral =
      spec_walk comps.length (boundaries comps) lateral 0 := by
  have hlen : 0 < comps.length := List.length_pos.mpr hne
  have hmain := branch_step_eq_walk comps lateral comps.length 0 0 0 0
    (by omega) (by omega) hlen
  simpa [branch_loop, boundaries] using hmain

theorem spec_walk_le (n : Nat) :
    ∀ (bs : List Nat) (k a : Nat), 1 ≤ k → k ≤ bs.length →
      spec_walk n bs k a =
        ((if k = 1 then a else bs.getD (k - 2) 0 + 1), bs.getD (k - 1) 0) := by
  intro bs
  induction bs with
  | nil =>
    intro k a hk1 hk2
    simp only [List.length_nil, Nat.le_zero] at hk2
    omega
  | cons b rest ih =>
    intro k a hk1 hk2
    rw [spec_walk_cons]
    by_cases hk : k ≤ 1
    · have hk0 : k = 1 := by omega
      subst hk0
      rw [if_pos (le_refl 1), if_pos rfl]
      simp
    · rw [if_neg hk, ih (k - 1) (b + 1) (by omega)
        (by simp only [List.length_cons] at hk2; omega)]
      simp only [Prod.mk.injEq]
      constructor
      · by_cases hk2a : k - 1 = 1
        · rw [if_pos hk2a, if_neg (by omega)]
          have h0 : k - 2 = 0 := by omega
          rw [h0]
          simp
        · rw [if_neg hk2a, if_neg (by omega)]
          have h4 : k - 2 = (k - 1 - 2) + 1 := by omega
          conv_rhs => rw [h4, List.getD_cons_succ]
      · have h5 : k - 1 = (k - 1 - 1) + 1 := by omega
        conv_rhs => rw [h5, List.getD_cons_succ]

theorem spec_walk_gt (n : Nat) :
    ∀ (bs : List Nat) (k a : Nat), bs.length < k →
      spec_walk n bs k a =
        ((if bs.length = 0 then a else bs.getD (bs.length - 1) 0 + 1), n - 1) := by
  intro bs
  induction bs with
  | nil => intro k a h; simp [spec_walk]
  | cons b rest ih =>
    intro k a h
    simp only [List.length_cons] at h
    rw [spec_walk_cons, if_neg (by omega), ih (k - 1) (b + 1) (by omega)]
    simp only [Prod.mk.injEq, List.length_cons]
    refine ⟨?_, trivial⟩
    by_cases hr : rest.length = 0
    · rw [if_pos hr, if_neg (by omega), hr]
      simp
    · rw [if_neg hr, if_neg (by omega)]
      have h4 : rest.length + 1 - 1 = (rest.length - 1) + 1 := by omega
      conv_rhs => rw [h4, List.getD_cons_succ]

/-- C4 (amended): walking the completion table in input order, a new branch
begins after index i exactly when i has at least 3 following rows whose
next 3 start depths all lie strictly below i's end depth (the `boundaries`
list); the loop closes branch L at the L-th boundary (starting right after
the (L-1)-th), and past the last boundary the branch closes at the last
row. The returned sub-table, however, is the label-inclusive `.loc` slice
`[a_row, zrow + 1]`: for every branch whose closing boundary is interior,
it extends one row beyond the detected boundary, so its last row is the
first row of the following branch. -/
theorem claim_C4_branch_selection (comps : List CompRow) (lateral : Nat)
    (h1 : 1 ≤ lateral) (hne : comps ≠ []) :
    (lateral ≤ (boundaries comps).length →
        branch_loop comps lateral =
          ((if lateral = 1 then 0 else (boundaries comps).getD (lateral - 2) 0 + 1),
            (boundaries comps).getD (lateral - 1) 0)) ∧
      ((boundaries comps).length < lateral →
        branch_loop comps lateral =
          ((if (boundaries comps).length = 0 then 0
            else (boundaries comps).getD ((boundaries comps).length - 1) 0 + 1),
            comps.length - 1)) ∧
      get_md_branch comps lateral =
        (comps.drop (branch_loop comps lateral).1).take
          ((branch_loop comps lateral).2 + 2 - (branch_loop comps lateral).1) ∧
      (lateral ≤ (boundaries comps).length →
        (get_md_branch comps lateral).getLast? =
          comps[(branch_loop comps lateral).2 + 1]?) := by
  have hwalk := branch_loop_eq_walk comps lateral h1 hne
  refine ⟨fun hle => ?_, fun hgt => ?_, rfl, fun hle => ?_⟩
  · rw [hwalk]
    exact spec_walk_le comps.length (boundaries comps) lateral 0 h1 hle
  · rw [hwalk]
    exact spec_walk_gt comps.length (boundaries comps) lateral 0 hgt
  · have hbr : branch_loop comps lateral =
        ((if lateral = 1 then 0 else (boundaries comps).getD (lateral - 2) 0 + 1),
          (boundaries comps).getD (lateral - 1) 0) := by
      rw [hwalk]
      exact spec_walk_le comps.length (boundaries comps) lateral 0 h1 hle
    have hZlt : lateral - 1 < (boundaries comps).length := by omega
    have hZmem : (boundaries comps).getD (lateral - 1) 0 ∈ boundaries comps := by
      rw [List.getD_eq_getElem (boundaries comps) 0 hZlt]
      exact List.getElem_mem hZlt
    have hZbd : is_branch_boundary comps ((boundaries comps).getD (lateral - 1) 0) :=
      (bounds_from_mem comps comps.length 0 _ hZmem).2
    have hZ3 : (boundaries comps).getD (lateral - 1) 0 + 3 < comps.length :=
      hZbd.1
    have hAZ : (if lateral = 1 then 0 else (boundaries comps).getD (lateral - 2) 0 + 1) ≤
        (boundaries comps).getD (lateral - 1) 0 + 1 := by
      by_cases hl1 : lateral = 1
      · rw [if_pos hl1]
        omega
      · rw [if_neg hl1]
        have h22 : lateral - 2 < (boundaries comps).length := by omega
        have hlt : (boundaries comps).getD (lateral - 2) 0 <
            (boundaries comps).getD (lateral - 1) 0 := by
          rw [List.getD_eq_getElem (boundaries comps) 0 h22,
            List.getD_eq_getElem (boundaries comps) 0 hZlt]
          exact List.pairwise_iff_getElem.mp
            (bounds_from_sorted comps comps.length 0) (lateral - 2) (lateral - 1)
            h22 hZlt (by omega)
        omega
    unfold get_md_branch
    rw [hbr]
    show ((comps.drop (if lateral = 1 then 0
        else (boundaries comps).getD (lateral - 2) 0 + 1)).take
          ((boundaries comps).getD (lateral - 1) 0 + 2 -
            (if lateral = 1 then 0
              else (boundaries comps).getD (lateral - 2) 0 + 1))).getLast? =
      comps[(boundaries comps).getD (lateral - 1) 0 + 1]?
    rw [List.getLast?_eq_getElem?]
    have hlen2 : ((comps.drop (if lateral = 1 then 0
        else (boundaries comps).getD (lateral - 2) 0 + 1)).take
          ((boundaries comps).getD (lateral - 1) 0 + 2 -
            (if lateral = 1 then 0
              else (boundaries comps).getD (lateral - 2) 0 + 1))).length =
        (boundaries comps).getD (lateral - 1) 0 + 2 -
          (if lateral = 1 then 0
            else (boundaries comps).getD (lateral - 2) 0 + 1) := by
      rw [List.length_take, List.length_drop]
      omega
    rw [hlen2, List.getElem?_take, if_pos (by omega), List.getElem?_drop]
    congr 1
    omega

/-- Two-lateral completion table used against C4: rows 0-4 are the first
branch (depths 0-50), rows 5-9 restart shallower (the second branch), so
row 4 is the only detected boundary. -/
def exC4 : List CompRow :=
  [⟨0, 0, 0, 0, 10⟩, ⟨0, 0, 0, 10, 20⟩, ⟨0, 0, 0, 20, 30⟩, ⟨0, 0, 0, 30, 40⟩,
    ⟨0, 0, 0, 40, 50⟩, ⟨0, 0, 0, 5, 15⟩, ⟨0, 0, 0, 15, 25⟩, ⟨0, 0, 0, 25, 35⟩,
    ⟨0, 0, 0, 35, 45⟩, ⟨0, 0, 0, 45, 55⟩]

/-- C4 fails as stated: branch 1 of `exC4` is detected as the index range
[0, 4] (boundary at row 4), yet the returned sub-table has 6 rows and its
last row is row 5 — the first row of branch 2 — because the pandas `.loc`
slice `[a_row : zrow + 1]` is label-inclusive. -/
theorem claim_C4_counterexample :
    boundaries exC4 = [4] ∧
      branch_loop exC4 1 = (0, 4) ∧
      (get_md_branch exC4 1).length = 6 ∧
      (get_md_branch exC4 1).getLast? = some ⟨0, 0, 0, 5, 15⟩ := by
  refine ⟨?_, ?_, ?_, ?_⟩ <;> decide

theorem claim_C4_witness :
    branch_loop exC4 1 = (0, (boundaries exC4).getD 0 0) ∧
      (get_md_branch exC4 1).getLast? = exC4[(branch_loop exC4 1).2 + 1]? := by
  have h := claim_C4_branch_selection exC4 1 (le_refl 1) (by decide)
  constructor
  · have h1 := h.1 (by decide)
    simpa using h1
  · exact h.2.2.2 (by decide)

end Complot
